import Mathlib

/-!
Verification of the subeth gateway against its specification.

The development shallowly embeds the Rust sources:
* `src/src/adapter.rs` — pallet-name/contract-address mapping, address mapping,
  storage-key hashing (`hash_key`);
* `src/chain/primitives/src/lib.rs` — `EthereumTransaction` and `signature()`;
* `src/chain/pallets/evm-adapter/src/lib.rs` — the on-chain adapter pallet
  (`decode_call`, `decode_balances_call`, `map_address_to_account`, `transact`);
* `src/src/cache.rs` — the `BlockCache`;
* `src/adapter/src/sub_client.rs` and `src/src/sub_client.rs` — the two
  `SubLightClient::call` and `convert_extrinsic` variants.

Bytes and Unicode scalar values are `Nat`s; Rust strings are lists of Unicode
scalar values; `Vec<u8>`/hash outputs are `List Nat`.  External primitives
(Blake2, Twox, Keccak, secp256k1 recovery, SCALE decoding of runtime calls,
JSON parsing) are consumed as function parameters, exactly as the spec treats
them ("consumed as functions").
-/

namespace Subeth

/-! ### UTF-8 (Rust `str::as_bytes` / `String::from_utf8`)

Rust strings are sequences of Unicode scalar values; `as_bytes` is UTF-8
encoding and `String::from_utf8` is strict UTF-8 decoding (rejecting overlong
forms, surrogates and out-of-range sequences). -/

/-- A Unicode scalar value: any code point except the surrogate range. -/
def ScalarValue (c : Nat) : Prop := c < 0xD800 ∨ (0xE000 ≤ c ∧ c < 0x110000)

instance (c : Nat) : Decidable (ScalarValue c) := by
  unfold ScalarValue; infer_instance

/-- UTF-8 encoding of one Unicode scalar value. -/
def utf8EncodeChar (c : Nat) : List Nat :=
  if c < 0x80 then [c]
  else if c < 0x800 then [0xC0 + c / 64, 0x80 + c % 64]
  else if c < 0x10000 then [0xE0 + c / 4096, 0x80 + c / 64 % 64, 0x80 + c % 64]
  else [0xF0 + c / 262144, 0x80 + c / 4096 % 64, 0x80 + c / 64 % 64, 0x80 + c % 64]

/-- UTF-8 encoding of a string (a list of Unicode scalar values). -/
def utf8Encode (cs : List Nat) : List Nat := (cs.map utf8EncodeChar).flatten

/-- A UTF-8 continuation byte. -/
def cont (x : Nat) : Prop := 0x80 ≤ x ∧ x < 0xC0

instance (x : Nat) : Decidable (cont x) := by unfold cont; infer_instance

/-- Leading plus continuation byte of a valid 2-byte sequence (`0xC2` excludes
overlong forms). -/
def twoByteOk (b b1 : Nat) : Prop := 0xC2 ≤ b ∧ b < 0xE0 ∧ cont b1

instance (b b1 : Nat) : Decidable (twoByteOk b b1) := by unfold twoByteOk; infer_instance

/-- Leading plus continuation bytes of a valid 3-byte sequence (no overlong
forms, no surrogates). -/
def threeByteOk (b b1 b2 : Nat) : Prop :=
  0xE0 ≤ b ∧ b < 0xF0 ∧ cont b1 ∧ cont b2 ∧ (b = 0xE0 → 0xA0 ≤ b1) ∧ (b = 0xED → b1 < 0xA0)

instance (b b1 b2 : Nat) : Decidable (threeByteOk b b1 b2) := by
  unfold threeByteOk; infer_instance

/-- Leading plus continuation bytes of a valid 4-byte sequence (no overlong
forms, maximum U+10FFFF). -/
def fourByteOk (b b1 b2 b3 : Nat) : Prop :=
  0xF0 ≤ b ∧ b < 0xF5 ∧ cont b1 ∧ cont b2 ∧ cont b3
    ∧ (b = 0xF0 → 0x90 ≤ b1) ∧ (b = 0xF4 → b1 < 0x90)

instance (b b1 b2 b3 : Nat) : Decidable (fourByteOk b b1 b2 b3) := by
  unfold fourByteOk; infer_instance

/-- The scalar value of a 2-byte sequence. -/
def char2 (b b1 : Nat) : Nat := (b - 0xC0) * 64 + (b1 - 0x80)

/-- The scalar value of a 3-byte sequence. -/
def char3 (b b1 b2 : Nat) : Nat := (b - 0xE0) * 4096 + (b1 - 0x80) * 64 + (b2 - 0x80)

/-- The scalar value of a 4-byte sequence. -/
def char4 (b b1 b2 b3 : Nat) : Nat :=
  (b - 0xF0) * 262144 + (b1 - 0x80) * 4096 + (b2 - 0x80) * 64 + (b3 - 0x80)

/-- Strict UTF-8 decoding of a byte sequence into Unicode scalar values,
mirroring Rust's `String::from_utf8` validity rules (shortest form only, no
surrogates, maximum U+10FFFF).  Bytes in `[0x80, 0xC2)` or above `0xF4` lead no
valid sequence, and a truncated sequence falls through to `none`. -/
def utf8Decode : List Nat → Option (List Nat)
  | [] => some []
  | [b] => if b < 0x80 then some [b] else none
  | [b, b1] =>
    if b < 0x80 then (utf8Decode [b1]).map (fun cs => b :: cs)
    else if twoByteOk b b1 then (utf8Decode []).map (fun cs => char2 b b1 :: cs)
    else none
  | [b, b1, b2] =>
    if b < 0x80 then (utf8Decode [b1, b2]).map (fun cs => b :: cs)
    else if twoByteOk b b1 then (utf8Decode [b2]).map (fun cs => char2 b b1 :: cs)
    else if threeByteOk b b1 b2 then (utf8Decode []).map (fun cs => char3 b b1 b2 :: cs)
    else none
  | b :: b1 :: b2 :: b3 :: rest =>
    if b < 0x80 then (utf8Decode (b1 :: b2 :: b3 :: rest)).map (fun cs => b :: cs)
    else if twoByteOk b b1 then (utf8Decode (b2 :: b3 :: rest)).map (fun cs => char2 b b1 :: cs)
    else if threeByteOk b b1 b2 then
      (utf8Decode (b3 :: rest)).map (fun cs => char3 b b1 b2 :: cs)
    else if fourByteOk b b1 b2 b3 then
      (utf8Decode rest).map (fun cs => char4 b b1 b2 b3 :: cs)
    else none

/-- Rust `str::trim_end_matches('\0')` on the scalar-value view of a string. -/
def trimEndNul (cs : List Nat) : List Nat :=
  ((cs.reverse.dropWhile (fun c => c == 0)).reverse)

/-! ### `PalletContractMapping` (`src/src/adapter.rs`) -/

/-- `PalletContractMapping::pad_to_eth_address`: copy at most 20 bytes of the
name into a zero-initialised 20-byte address. -/
def padToEthAddress (bytes : List Nat) : List Nat :=
  bytes.take (min bytes.length 20) ++ List.replicate (20 - min bytes.length 20) 0

/-- `PalletContractMapping::contract_address`: keep only the first 8 `char`s of
the pallet name, then pad its UTF-8 bytes to a 20-byte address. -/
def contract_address (pallet : List Nat) : List Nat :=
  padToEthAddress (utf8Encode (pallet.take 8))

/-- `PalletContractMapping::pallet_name`: read the address bytes as UTF-8
(`None` when invalid) and trim trailing NULs. -/
def pallet_name (address : List Nat) : Option (List Nat) :=
  (utf8Decode address).map trimEndNul

/-! ### `AddressMapping` (`src/src/adapter.rs`) -/

/-- The zero-initialised 32-byte buffer whose first 20 entries are copied from
`address` (`input[..20].copy_from_slice(...)`; `address` is 20 bytes). -/
def padAccountInput (address : List Nat) : List Nat :=
  (List.range 32).map (fun i => if i < 20 then address.getD i 0 else 0)

/-- `AddressMapping::to_ss58`: Blake2-256 of the 20-byte address left in a
zeroed 32-byte buffer, read as the `AccountId32`. -/
def to_ss58 (blake2_256 : List Nat → List Nat) (address : List Nat) : List Nat :=
  blake2_256 (padAccountInput address)

/-- `AddressMapping::to_address`: truncate the 32-byte account to 20 bytes. -/
def to_address (account : List Nat) : List Nat := account.take 20

/-! ### `EthereumTransaction` (`src/chain/primitives/src/lib.rs`) -/

/-- The wire-level Ethereum transaction of the on-chain adapter.  Scalars are
`Nat`s (u64/U256 values), `to` is the 20-byte destination, `r`/`s` the 32-byte
signature halves. -/
structure EthereumTransaction where
  chain_id : Nat
  nonce : Nat
  max_priority_fee_per_gas : Nat
  max_fee_per_gas : Nat
  gas_limit : Nat
  /-- The `to` field of the source (`to` is a Lean keyword). -/
  toAddr : List Nat
  value : Nat
  data : List Nat
  access_list : List (List Nat × List (List Nat))
  v : Nat
  r : List Nat
  s : List Nat
deriving DecidableEq

/-- `EthereumTransaction::signature`: build `r ‖ s ‖ v_norm` where the recovery
id is `(v - 27) as u8` for `v ≥ 27` and `v as u8` otherwise, rejecting ids
above 1.  (The `as u8` casts are the `% 256` reductions.) -/
def EthereumTransaction.signature (tx : EthereumTransaction) : Option (List Nat) :=
  let recovery_id := if 27 ≤ tx.v then (tx.v - 27) % 256 else tx.v % 256
  if 1 < recovery_id then none
  else some (tx.r ++ tx.s ++ [recovery_id])

/-! ### The on-chain adapter pallet (`src/chain/pallets/evm-adapter/src/lib.rs`) -/

/-- Little-endian bytes of a `u64` (`to_le_bytes`). -/
def le64 (n : Nat) : List Nat := (List.range 8).map (fun i => n / 256 ^ i % 256)

/-- `u256_to_le_bytes`: 32 little-endian bytes of a `U256` (four LE `u64`
words, least-significant word first). -/
def u256ToLeBytes (n : Nat) : List Nat := (List.range 32).map (fun i => n / 256 ^ i % 256)

/-- `U256::from_big_endian` of a byte slice. -/
def beNat (bytes : List Nat) : Nat := bytes.foldl (fun acc b => acc * 256 + b) 0

/-- The runtime call type dispatched by the pallet.  `T::RuntimeCall` is a
runtime-specific SCALE-decodable sum with an injection from
`pallet_balances::Call`; calls other than the injected `transfer_allow_death`
are opaque here. -/
inductive RuntimeCall where
  | transferAllowDeath (dest : List Nat) (value : Nat)
  | otherCall (n : Nat)
deriving DecidableEq

/-- The pallet's error enum. -/
inductive PalletError where
  | SignerRecoveryFailed
  | CallDecodeFailed
  | DispatchFailed
  | InvalidRecoveryId
  | UnsupportedPallet
  | InvalidTransactionData
deriving DecidableEq

/-- External primitives the pallet consumes: hashing, ECDSA recovery, the
runtime's SCALE decoder for `RuntimeCall`, the dispatcher, and the runtime's
balance bound (`saturated_into` saturates at `balanceMax`). -/
structure PalletEnv where
  keccak_256 : List Nat → List Nat
  blake2_256 : List Nat → List Nat
  secp256k1_ecdsa_recover : List Nat → List Nat → Option (List Nat)
  decodeRuntimeCall : List Nat → Option RuntimeCall
  dispatch : List Nat → RuntimeCall → Bool
  balanceMax : Nat

/-- `EthereumTransaction::message_hash`: Keccak-256 of the project-internal
little-endian pre-image `02 ‖ chain_id ‖ nonce ‖ fees ‖ gas_limit ‖ to ‖ value
‖ data`. -/
def EthereumTransaction.message_hash (env : PalletEnv) (tx : EthereumTransaction) : List Nat :=
  env.keccak_256
    ([0x02] ++ le64 tx.chain_id ++ le64 tx.nonce
      ++ u256ToLeBytes tx.max_priority_fee_per_gas ++ u256ToLeBytes tx.max_fee_per_gas
      ++ le64 tx.gas_limit ++ tx.toAddr ++ u256ToLeBytes tx.value ++ tx.data)

/-- `EthereumTransaction::hash`: Keccak-256 of the SCALE encoding of the whole
transaction.  The SCALE codec is external; `scaleEncodeTx` stands for
`transaction.encode()`. -/
def EthereumTransaction.txHash (keccak : List Nat → List Nat)
    (scaleEncodeTx : EthereumTransaction → List Nat) (tx : EthereumTransaction) : List Nat :=
  keccak (scaleEncodeTx tx)

/-- `Pallet::map_address_to_account`: Blake2-256 of the address left in a
zeroed 32-byte buffer; the digest is the `AccountId32`. -/
def map_address_to_account (blake2_256 : List Nat → List Nat) (address : List Nat) : List Nat :=
  blake2_256 (padAccountInput address)

/-- `Pallet::verify_and_recover_signer`: message hash, normalised signature,
secp256k1 recovery, then the last 20 bytes of `keccak_256(pubkey)`. -/
def verify_and_recover_signer (env : PalletEnv) (tx : EthereumTransaction) :
    Except PalletError (List Nat) :=
  let message_hash := tx.message_hash env
  match tx.signature with
  | none => .error .InvalidRecoveryId
  | some sig =>
    match env.secp256k1_ecdsa_recover sig message_hash with
    | none => .error .SignerRecoveryFailed
    | some pubkey => .ok ((env.keccak_256 pubkey).drop 12)

/-- The scalar values of `"Balances"`. -/
def balancesName : List Nat := [66, 97, 108, 97, 110, 99, 101, 115]

/-- `Pallet::decode_balances_call`: ABI-style `transfer(address,uint256)`
decoding.  The amount is `U256::from_big_endian(...).low_u128()` (the low 128
bits) and then `saturated_into` the balance type. -/
def decode_balances_call (env : PalletEnv) (tx : EthereumTransaction) :
    Except PalletError RuntimeCall :=
  if tx.data.length < 4 ∨ tx.data.take 4 ≠ [0xa9, 0x05, 0x9c, 0xbb] then
    .error .CallDecodeFailed
  else if tx.data.length < 68 then
    .error .InvalidTransactionData
  else
    let address_bytes := (tx.data.drop 16).take 20
    let dest := map_address_to_account env.blake2_256 address_bytes
    let value := beNat ((tx.data.drop 36).take 32)
    let amount := min (value % 2 ^ 128) env.balanceMax
    .ok (.transferAllowDeath dest amount)

/-- `Pallet::decode_call`: route on `pallet_name_from_address(transaction.to)`,
with the `"Balances"` ABI path, the `""` SCALE path, and `UnsupportedPallet`
otherwise. -/
def decode_call (env : PalletEnv) (tx : EthereumTransaction) :
    Except PalletError RuntimeCall :=
  match pallet_name tx.toAddr with
  | none => .error .UnsupportedPallet
  | some name =>
    if name = balancesName then decode_balances_call env tx
    else if name = [] then
      match env.decodeRuntimeCall tx.data with
      | some call => .ok call
      | none => .error .CallDecodeFailed
    else .error .UnsupportedPallet

/-- `Pallet::transact` (after `ensure_signed`): recover the signer, decode the
call, map the address to an account, dispatch.  Event deposits are elided; the
result reflects success or the dispatch error. -/
def transact (env : PalletEnv) (tx : EthereumTransaction) : Except PalletError Unit := do
  let fromAddr ← verify_and_recover_signer env tx
  let call ← decode_call env tx
  let substrate_account := map_address_to_account env.blake2_256 fromAddr
  if env.dispatch substrate_account call then
    .ok ()
  else
    .error .DispatchFailed

/-! ### `BlockCache` (`src/src/cache.rs`)

The cache is dual-indexed: a FIFO `order` queue of hashes (front at the head),
a number-to-hash map and a hash-to-block map.  Hashes and numbers are the
`Nat`-valued keys of the two `HashMap`s; a cached block keeps its header hash,
its number and an abstract payload (the rest of the `EthBlock`). -/

/-- A cached Ethereum block: header hash, header number, abstract payload. -/
structure CBlock where
  hash : Nat
  number : Nat
  payload : Nat
deriving DecidableEq

/-- The state behind the cache's reader-writer lock. -/
structure CacheState where
  order : List Nat
  number_to_hash : Nat → Option Nat
  hash_to_block : Nat → Option CBlock
  max_blocks : Nat

/-- `BlockCache::with_capacity`: a fresh cache. -/
def emptyCache (max_blocks : Nat) : CacheState :=
  { order := [], number_to_hash := fun _ => none, hash_to_block := fun _ => none,
    max_blocks := max_blocks }

/-- `BlockCache::insert_block`: evict the front of `order` when at capacity
(removing it from `hash_to_block` and retaining only `number_to_hash` entries
that do not point at it), then insert the new block under its number and hash
and push its hash to the back of `order`. -/
def insert_block (st : CacheState) (b : CBlock) : CacheState :=
  let st1 :=
    if st.max_blocks ≤ st.order.length then
      match st.order with
      | [] => st
      | old_hash :: rest =>
        { st with
          order := rest
          hash_to_block := fun h => if h = old_hash then none else st.hash_to_block h
          number_to_hash := fun n =>
            match st.number_to_hash n with
            | some h => if h = old_hash then none else some h
            | none => none }
    else st
  { st1 with
    number_to_hash := fun n => if n = b.number then some b.hash else st1.number_to_hash n
    hash_to_block := fun h => if h = b.hash then some b else st1.hash_to_block h
    order := st1.order ++ [b.hash] }

/-- `BlockCache::insert_number_to_hash`: record the mapping only. -/
def insert_number_to_hash (st : CacheState) (number hash : Nat) : CacheState :=
  { st with number_to_hash := fun n => if n = number then some hash else st.number_to_hash n }

/-- `BlockCache::get_by_number`. -/
def get_by_number (st : CacheState) (number : Nat) : Option CBlock :=
  (st.number_to_hash number).bind st.hash_to_block

/-- `BlockCache::get_by_hash`. -/
def get_by_hash (st : CacheState) (hash : Nat) : Option CBlock :=
  st.hash_to_block hash

/-- `BlockCache::get_hash_by_number`. -/
def get_hash_by_number (st : CacheState) (number : Nat) : Option Nat :=
  st.number_to_hash number

/-- A sequence of `insert_block` calls. -/
def insertAll (st : CacheState) (bs : List CBlock) : CacheState :=
  bs.foldl insert_block st

/-! ### Storage metadata and `SubLightClient::call`

Embeds the storage-key machinery of `src/src/adapter.rs` (`StorageKey`,
`hash_key`) together with the two `call` implementations:
`src/adapter/src/sub_client.rs` (missing key fragments are skipped) and
`src/src/sub_client.rs` (missing key fragments are an error). -/

/-- `subxt::metadata::types::StorageHasher`. -/
inductive StorageHasher where
  | blake2_128
  | blake2_256
  | blake2_128Concat
  | twox128
  | twox256
  | twox64Concat
  | identity
deriving DecidableEq

/-- The external hash primitives of `sp_core` / `frame_support`. -/
structure HashFns where
  blake2_128 : List Nat → List Nat
  blake2_256 : List Nat → List Nat
  twox_128 : List Nat → List Nat
  twox_256 : List Nat → List Nat
  twox_64 : List Nat → List Nat

/-- `hash_key` (`src/src/adapter.rs`): apply one storage hasher to raw key
bytes. -/
def hash_key (H : HashFns) (key : List Nat) (hasher : StorageHasher) : List Nat :=
  match hasher with
  | .blake2_128 => H.blake2_128 key
  | .blake2_256 => H.blake2_256 key
  | .blake2_128Concat => H.blake2_128 key ++ key
  | .twox128 => H.twox_128 key
  | .twox256 => H.twox_256 key
  | .twox64Concat => H.twox_64 key ++ key
  | .identity => key

/-- `StorageEntryType`: plain entry or map with declared hashers (key/value
type ids are unused by `call` and elided). -/
inductive StorageEntryType where
  | plain
  | map (hashers : List StorageHasher)
deriving DecidableEq

/-- The `StorageKey` JSON payload of `eth_call`: entry name plus per-key raw
bytes. -/
structure StorageKeyReq where
  name : List Nat
  keys : List (List Nat)
deriving DecidableEq

/-- Storage section of one pallet's metadata: entries by name. -/
structure PalletStorageMeta where
  entries : List (List Nat × StorageEntryType)
deriving DecidableEq

/-- One pallet's metadata: its (optional) storage section. -/
structure PalletMeta where
  storage : Option PalletStorageMeta
deriving DecidableEq

/-- Runtime metadata: pallets by name. -/
structure Metadata where
  pallets : List (List Nat × PalletMeta)
deriving DecidableEq

/-- Name lookup in an association list (the `..._by_name` metadata methods). -/
def lookupName {α : Type} (l : List (List Nat × α)) (name : List Nat) : Option α :=
  (l.find? (fun p => p.1 = name)).map (fun p => p.2)

/-- The `pallet_by_name(..).and_then(storage).and_then(entry_by_name)` chain. -/
def lookupEntry (md : Metadata) (palletName entryName : List Nat) : Option StorageEntryType :=
  ((lookupName md.pallets palletName).bind (fun p => p.storage)).bind
    (fun s => lookupName s.entries entryName)

/-- `TxKind`: call to an address, or create. -/
inductive TxKind where
  | call (dest : List Nat)
  | create
deriving DecidableEq

/-- The parts of `TransactionRequest` read by `call`: `request.to` and
`request.input.input`. -/
structure TransactionRequest where
  toField : Option TxKind
  input : Option (List Nat)
deriving DecidableEq

/-- The gateway error enum (`SubEthError`; the union of the variants of
`src/adapter/src/types.rs` and `src/src/types.rs`). -/
inductive SubEthErr where
  | requestFailed (msg : String)
  | responseFailed
  | serdeError (msg : String)
  | adapterError (message : String)
  | unsupported
  | conversionError
deriving DecidableEq

/-- External context of `SubLightClient::call`: the runtime metadata, the JSON
parser for `StorageKey` (`serde_json::from_slice`), the hash primitives and the
backend's raw storage fetch (which may fail with a backend error). -/
structure CallEnv where
  H : HashFns
  metadata : Metadata
  parseStorageKey : List Nat → Option StorageKeyReq
  fetch_raw : List Nat → Except SubEthErr (Option (List Nat))

/-- The fragment loop of the adapter `call`
(`for (i, hasher) in hashers.iter().enumerate() { if let Some(key_raw) = keys.get(i) ... }`):
missing key fragments are skipped. -/
def adapterFragments (H : HashFns) (keys : List (List Nat)) :
    Nat → List StorageHasher → List Nat
  | _, [] => []
  | i, hasher :: hs =>
    (match keys[i]? with
     | some key_raw => hash_key H key_raw hasher
     | none => []) ++ adapterFragments H keys (i + 1) hs

/-- The fragment loop of the legacy `call`
(`let key_raw = storage_key.keys.get(i).ok_or(...)?`): a missing key fragment
aborts with an `AdapterError`. -/
def legacyFragments (H : HashFns) (keys : List (List Nat)) :
    Nat → List StorageHasher → Except SubEthErr (List Nat)
  | _, [] => .ok []
  | i, hasher :: hs =>
    match keys[i]? with
    | some key_raw =>
      (legacyFragments H keys (i + 1) hs).map (fun tailKey => hash_key H key_raw hasher ++ tailKey)
    | none => .error (.adapterError "Number of storage keys does not match with hashers")

/-- The per-entry fragment block of the adapter `call`: the fragment loop for a
Map entry, nothing for a Plain entry. -/
def entryFragments (H : HashFns) (keys : List (List Nat)) : StorageEntryType → List Nat
  | .map hashers => adapterFragments H keys 0 hashers
  | .plain => []

/-- `SubLightClient::call` of `src/adapter/src/sub_client.rs`: every guard
failure short-circuits to `Ok(None)`; the storage key is
`Twox128(pallet) ‖ Twox128(entry) ‖ fragments`. -/
def call_adapter (env : CallEnv) (request : TransactionRequest) :
    Except SubEthErr (Option (List Nat)) :=
  match request.toField with
  | some (.call dest) =>
    match pallet_name dest with
    | some palletName =>
      match (match request.input with
             | some input => env.parseStorageKey input
             | none => none) with
      | some storage_key =>
        match lookupEntry env.metadata palletName storage_key.name with
        | some entry =>
          let prefixKey := env.H.twox_128 (utf8Encode palletName)
            ++ env.H.twox_128 (utf8Encode storage_key.name)
          let final_key := prefixKey ++
            (match entry with
             | .map hashers => adapterFragments env.H storage_key.keys 0 hashers
             | .plain => [])
          env.fetch_raw final_key
        | none => .ok none
      | none => .ok none
    | none => .ok none
  | _ => .ok none

/-- `SubLightClient::call` of `src/src/sub_client.rs` (the duplicate legacy
gateway crate): every guard failure is an `AdapterError`, and a Map entry
requires a key fragment per declared hasher. -/
def call_legacy (env : CallEnv) (request : TransactionRequest) :
    Except SubEthErr (Option (List Nat)) :=
  match request.toField with
  | none => .error (.adapterError "Destination not found")
  | some .create => .error (.adapterError "Unsupported transaction type")
  | some (.call dest) =>
    match pallet_name dest with
    | none => .error (.adapterError "Destination is not a contract")
    | some palletName =>
      match request.input with
      | none => .error (.adapterError "Call input not found")
      | some input =>
        match env.parseStorageKey input with
        | none => .error (.adapterError "Invalid call input")
        | some storage_key =>
          match lookupName env.metadata.pallets palletName with
          | none => .error (.adapterError "Pallet not found")
          | some pallet =>
            match pallet.storage with
            | none => .error (.adapterError "Pallet storage not found")
            | some storage =>
              match lookupName storage.entries storage_key.name with
              | none => .error (.adapterError "Storage entry not found")
              | some entry =>
                let prefixKey := env.H.twox_128 (utf8Encode palletName)
                  ++ env.H.twox_128 (utf8Encode storage_key.name)
                match entry with
                | .plain => env.fetch_raw (prefixKey ++ [])
                | .map hashers =>
                  match legacyFragments env.H storage_key.keys 0 hashers with
                  | .ok storage_final_key => env.fetch_raw (prefixKey ++ storage_final_key)
                  | .error e => .error e

/-! ### `convert_extrinsic` (`src/adapter/src/sub_client.rs`, `src/src/sub_client.rs`)

The `subxt` `ExtrinsicDetails` accessors used by the converter are modelled as
the fields of `ExtrinsicData`; the converter itself is embedded twice, once per
crate. -/

/-- `subxt::utils::MultiAddress` as matched by the converter.  The remaining
variants are declared `unreachable!` at the use site and are elided. -/
inductive MultiAddr where
  | id (account : List Nat)
  | address32 (bytes : List Nat)
deriving DecidableEq

/-- The accessor results of one `ExtrinsicDetails`:
`hash`, `index`, `address_bytes`, the `as_extrinsic` probe for
`TransferAllowDeath`/`TransferKeepAlive` (first successful one), the
`pallet_name()` result, `signed_extensions()` with its `nonce()`, and
`call_bytes`. -/
structure ExtrinsicData where
  hashBytes : List Nat
  index : Nat
  address_bytes : Option (List Nat)
  transfer : Option (MultiAddr × Nat)
  pallet_name_res : Option (List Nat)
  signed_extensions : Option (Option Nat)
  call_bytes : List Nat
deriving DecidableEq

/-- The translated Ethereum transaction view (the fields the converter sets;
`from` is a Lean keyword, hence `fromAddr`). -/
structure EthTxView where
  fromAddr : List Nat
  toAddr : List Nat
  value : Nat
  nonce : Nat
  gas_limit : Nat
  input : List Nat
  tx_hash : List Nat
  block_hash : List Nat
  block_number : Nat
  transaction_index : Nat
deriving DecidableEq

/-- `to_wei`: scale a native value by `10^decimals`. -/
def to_wei (value : Nat) (decimals : Nat) : Nat := value * 10 ^ decimals

/-- The `(dest, value)` block shared verbatim by both converters: balances
transfers map to the truncated recipient and its value, anything else to the
pallet-synthetic contract address and value zero (erroring when the pallet
name is unavailable). -/
def destValue (ext : ExtrinsicData) : Except SubEthErr (List Nat × Nat) :=
  match ext.transfer with
  | some (.id account, value) => .ok (to_address account, value)
  | some (.address32 bytes, value) => .ok (to_address bytes, value)
  | none =>
    match ext.pallet_name_res with
    | some palletName => .ok (contract_address palletName, 0)
    | none => .error (.adapterError "Could not fetch pallet name from extrinsic")

/-- `convert_extrinsic` of `src/adapter/src/sub_client.rs`: a missing signer
(`address_bytes() == None`, i.e. unsigned/inherent) and a failed 32-byte
conversion both fall back to the zero account
(`try_into().unwrap_or_default()`); `from` is its 20-byte truncation. -/
def convert_extrinsic_adapter (block_number : Nat) (block_hash : List Nat)
    (ext : ExtrinsicData) (decimals : Nat) : Except SubEthErr EthTxView :=
  let from32 : List Nat :=
    match ext.address_bytes with
    | some addr => if addr.length = 32 then addr else List.replicate 32 0
    | none => List.replicate 32 0
  let fromAddr := to_address from32
  match destValue ext with
  | .error e => .error e
  | .ok (dest, value) =>
    let nonce :=
      match ext.signed_extensions with
      | some exts => exts.getD 0
      | none => 0
    .ok { fromAddr := fromAddr, toAddr := dest, value := to_wei value decimals,
          nonce := nonce, gas_limit := 21000000, input := ext.call_bytes,
          tx_hash := ext.hashBytes, block_hash := block_hash,
          block_number := block_number, transaction_index := ext.index }

/-- `convert_extrinsic` of `src/src/sub_client.rs` (the duplicate legacy gateway
crate): a missing signer is `AdapterError "Address not found"`; the
`try_into().expect(...)` and `signed_extensions().expect(...)` panics are
modelled as errors (both are unreachable for well-formed signed extrinsics);
a missing nonce is `AdapterError "Nonce not found"`. -/
def convert_extrinsic_legacy (block_number : Nat) (block_hash : List Nat)
    (ext : ExtrinsicData) (decimals : Nat) : Except SubEthErr EthTxView :=
  match ext.address_bytes with
  | none => .error (.adapterError "Address not found")
  | some addr =>
    if addr.length = 32 then
      let fromAddr := to_address addr
      match destValue ext with
      | .error e => .error e
      | .ok (dest, value) =>
        match ext.signed_extensions with
        | none => .error (.adapterError "panic: should have signed extensions")
        | some none => .error (.adapterError "Nonce not found")
        | some (some nonce) =>
          .ok { fromAddr := fromAddr, toAddr := dest, value := to_wei value decimals,
                nonce := nonce, gas_limit := 21000000, input := ext.call_bytes,
                tx_hash := ext.hashBytes, block_hash := block_hash,
                block_number := block_number, transaction_index := ext.index }
    else .error (.adapterError "panic: should be safe to convert")

/-- Decidable equality for `Except` results. -/
instance {ε α : Type} [DecidableEq ε] [DecidableEq α] : DecidableEq (Except ε α) := fun x y =>
  match x, y with
  | .ok a, .ok b =>
    if h : a = b then .isTrue (by rw [h]) else .isFalse (by intro hh; cases hh; exact h rfl)
  | .ok _, .error _ => .isFalse (by intro h; cases h)
  | .error _, .ok _ => .isFalse (by intro h; cases h)
  | .error e, .error f =>
    if h : e = f then .isTrue (by rw [h]) else .isFalse (by intro hh; cases hh; exact h rfl)

/-! ### Concrete sample instantiations of the external primitives

Used by witnesses and counterexamples; the external hash/recover/decode/parse
functions can be arbitrary, so simple computable stand-ins are chosen. -/

/-- A concrete stand-in for an external hash function. -/
def idHash : List Nat → List Nat := fun l => l

/-- A concrete `HashFns` record. -/
def sampleHashFns : HashFns :=
  { blake2_128 := idHash, blake2_256 := idHash, twox_128 := idHash,
    twox_256 := idHash, twox_64 := idHash }

/-- A concrete pallet environment: recovery always succeeds, the runtime call
decoder always yields `otherCall 5`, dispatch always succeeds, and the balance
type is `u128`. -/
def samplePalletEnv : PalletEnv :=
  { keccak_256 := idHash, blake2_256 := idHash,
    secp256k1_ecdsa_recover := fun _ _ => some (List.replicate 64 0),
    decodeRuntimeCall := fun _ => some (.otherCall 5),
    dispatch := fun _ _ => true,
    balanceMax := 2 ^ 128 - 1 }

/-! ## Theorems -/

/-- The 32-byte account-hash input is the address followed by 12 zero bytes. -/
theorem padAccountInput_eq (A : List Nat) (hA : A.length = 20) :
    padAccountInput A = A ++ List.replicate 12 0 := by
  apply List.ext_getElem
  · simp [padAccountInput, hA]
  · intro i h1 h2
    simp only [padAccountInput, List.getElem_map, List.getElem_range]
    by_cases hi : i < 20
    · rw [if_pos hi, List.getElem_append_left (by omega),
        List.getD_eq_getElem A 0 (by omega)]
    · rw [if_neg hi, List.getElem_append_right (by omega), List.getElem_replicate]

/-- Claim C8: the gateway's `AddressMapping::to_ss58` and the pallet's
`map_address_to_account` compute the same function, namely Blake2-256 of the
20-byte address followed by 12 zero bytes. -/
theorem address_mapping_agreement (blake2_256 : List Nat → List Nat) (A : List Nat)
    (hA : A.length = 20) :
    to_ss58 blake2_256 A = map_address_to_account blake2_256 A
    ∧ to_ss58 blake2_256 A = blake2_256 (A ++ List.replicate 12 0) := by
  refine ⟨rfl, ?_⟩
  unfold to_ss58
  rw [padAccountInput_eq A hA]

/-- Witness for C8: both embeddings agree at `[0x01; 20]` with a concrete hash
function. -/
theorem address_mapping_agreement_witness :
    to_ss58 (fun l => 1 :: l) (List.replicate 20 1)
        = map_address_to_account (fun l => 1 :: l) (List.replicate 20 1)
    ∧ to_ss58 (fun l => 1 :: l) (List.replicate 20 1)
        = (fun l => 1 :: l) (List.replicate 20 1 ++ List.replicate 12 0) :=
  address_mapping_agreement (fun l => 1 :: l) (List.replicate 20 1) (by simp)

/-- Claim C3 (amended): `signature()` succeeds exactly when `v ≤ 1`, or
`v ≥ 27` with `(v - 27) mod 256 ≤ 1` (the `as u8` cast truncates); on
`v ∈ {0, 1, 27, 28}` it yields the 65-byte `r ‖ s ‖ v_norm` with
`v_norm = v - 27` for the legacy values and `v_norm = v` otherwise. -/
theorem signature_characterization (tx : EthereumTransaction)
    (hr : tx.r.length = 32) (hs : tx.s.length = 32) :
    (tx.signature.isSome ↔
        ((tx.v < 27 ∧ tx.v ≤ 1) ∨ (27 ≤ tx.v ∧ (tx.v - 27) % 256 ≤ 1)))
    ∧ ((tx.v = 0 ∨ tx.v = 1 ∨ tx.v = 27 ∨ tx.v = 28) →
        tx.signature = some (tx.r ++ tx.s ++ [if 27 ≤ tx.v then tx.v - 27 else tx.v])
        ∧ ∀ sig, tx.signature = some sig → sig.length = 65) := by
  constructor
  · unfold EthereumTransaction.signature
    by_cases h27 : 27 ≤ tx.v
    · simp only [if_pos h27]
      by_cases hid : 1 < (tx.v - 27) % 256
      · simp only [if_pos hid, Option.isSome_none]
        constructor
        · intro h; exact absurd h (by simp)
        · intro h; omega
      · simp only [if_neg hid, Option.isSome_some]
        constructor
        · intro _; right; exact ⟨h27, by omega⟩
        · intro _; trivial
    · simp only [if_neg h27]
      have hmod : tx.v % 256 = tx.v := Nat.mod_eq_of_lt (by omega)
      rw [hmod]
      by_cases hid : 1 < tx.v
      · simp only [if_pos hid, Option.isSome_none]
        constructor
        · intro h; exact absurd h (by simp)
        · intro h; omega
      · simp only [if_neg hid, Option.isSome_some]
        constructor
        · intro _; left; exact ⟨by omega, by omega⟩
        · intro _; trivial
  · intro hv
    have hsig : tx.signature
        = some (tx.r ++ tx.s ++ [if 27 ≤ tx.v then tx.v - 27 else tx.v]) := by
      unfold EthereumTransaction.signature
      rcases hv with h | h | h | h <;> rw [h] <;> norm_num
    refine ⟨hsig, ?_⟩
    intro sig hsg
    rw [hsig] at hsg
    cases hsg
    simp [hr, hs]

/-- Witness for C3: the literal spec scenarios `v = 27`, `v = 28`, `v = 30`
with `r = [0x11; 32]`, `s = [0x22; 32]`. -/
theorem signature_characterization_witness :
    (EthereumTransaction.signature
        ⟨1, 0, 0, 0, 21000, List.replicate 20 0, 0, [], [], 27,
          List.replicate 32 0x11, List.replicate 32 0x22⟩
      = some (List.replicate 32 0x11 ++ List.replicate 32 0x22 ++ [0]))
    ∧ (EthereumTransaction.signature
        ⟨1, 0, 0, 0, 21000, List.replicate 20 0, 0, [], [], 28,
          List.replicate 32 0x11, List.replicate 32 0x22⟩
      = some (List.replicate 32 0x11 ++ List.replicate 32 0x22 ++ [1]))
    ∧ (EthereumTransaction.signature
        ⟨1, 0, 0, 0, 21000, List.replicate 20 0, 0, [], [], 30,
          List.replicate 32 0x11, List.replicate 32 0x22⟩).isSome = false := by
  refine ⟨?_, ?_, ?_⟩
  · have h := (signature_characterization
      ⟨1, 0, 0, 0, 21000, List.replicate 20 0, 0, [], [], 27,
        List.replicate 32 0x11, List.replicate 32 0x22⟩ (by simp) (by simp)).2
      (by norm_num)
    simpa using h.1
  · have h := (signature_characterization
      ⟨1, 0, 0, 0, 21000, List.replicate 20 0, 0, [], [], 28,
        List.replicate 32 0x11, List.replicate 32 0x22⟩ (by simp) (by simp)).2
      (by norm_num)
    simpa using h.1
  · have h := (signature_characterization
      ⟨1, 0, 0, 0, 21000, List.replicate 20 0, 0, [], [], 30,
        List.replicate 32 0x11, List.replicate 32 0x22⟩ (by simp) (by simp)).1
    rw [← Bool.not_eq_true, h]
    decide

/-- Counterexample to C3 as stated: `v = 283` is not in `{0, 1, 27, 28}`, yet
`signature()` succeeds (the `(v - 27) as u8` cast wraps 256 to 0). -/
theorem signature_283_succeeds :
    (EthereumTransaction.signature
        ⟨1, 0, 0, 0, 21000, List.replicate 20 0, 0, [], [], 283,
          List.replicate 32 0x11, List.replicate 32 0x22⟩
      = some (List.replicate 32 0x11 ++ List.replicate 32 0x22 ++ [0]))
    ∧ ¬(283 = 0 ∨ 283 = 1 ∨ 283 = 27 ∨ 283 = 28) := by decide

/-- Claim C1 (amended): only when `pallet_name(to)` is the empty string (e.g.
the zero address) is the dispatched call obtained by SCALE-decoding `data`
(failing with `CallDecodeFailed`); `decode_call` otherwise routes on `to`. -/
theorem decode_call_scale_path (env : PalletEnv) (tx : EthereumTransaction)
    (h : pallet_name tx.toAddr = some []) :
    decode_call env tx =
      match env.decodeRuntimeCall tx.data with
      | some call => .ok call
      | none => .error .CallDecodeFailed := by
  unfold decode_call
  rw [h]
  have hne : ([] : List Nat) ≠ balancesName := by decide
  simp [hne]

/-- Witness for C1 (amended): a transaction to the zero address is dispatched
as the SCALE decoding of its `data`. -/
theorem decode_call_scale_path_witness :
    decode_call samplePalletEnv
        ⟨1, 0, 0, 0, 21000, List.replicate 20 0, 0, [1, 2, 3], [], 0,
          List.replicate 32 0, List.replicate 32 0⟩
      = .ok (.otherCall 5) := by
  have h := decode_call_scale_path samplePalletEnv
    ⟨1, 0, 0, 0, 21000, List.replicate 20 0, 0, [1, 2, 3], [], 0,
      List.replicate 32 0, List.replicate 32 0⟩ (by decide)
  rw [h]
  rfl

/-- Counterexample to C1 as stated: with `to` the Staking pallet address the
runtime-call decoder succeeds on `data`, yet `decode_call` fails with
`UnsupportedPallet` — the `to` field determines which call (if any) is
dispatched. -/
theorem decode_call_routes_on_to :
    decode_call samplePalletEnv
        ⟨1, 0, 0, 0, 21000,
          [83, 116, 97, 107, 105, 110, 103, 0, 0, 0, 0, 0, 0, 0, 0, 0, 0, 0, 0, 0],
          0, [1, 2, 3], [], 0, List.replicate 32 0, List.replicate 32 0⟩
      = .error .UnsupportedPallet
    ∧ samplePalletEnv.decodeRuntimeCall [1, 2, 3] = some (.otherCall 5)
    ∧ decode_call samplePalletEnv
        ⟨1, 0, 0, 0, 21000, List.replicate 20 0, 0, [1, 2, 3], [], 0,
          List.replicate 32 0, List.replicate 32 0⟩
      = .ok (.otherCall 5) := by decide

/-- Claim C10 (amended): for a transaction to the Balances pallet address,
`decode_call` demands the `0xa9059cbb` selector (else `CallDecodeFailed`) and
at least 68 data bytes (else `InvalidTransactionData`), and produces a
`transfer_allow_death` to the mapped account of `data[16..36]` whose amount is
the low 128 bits of the big-endian integer in `data[36..68]` saturated into
the balance type. -/
theorem decode_balances_characterization (env : PalletEnv) (tx : EthereumTransaction)
    (h : pallet_name tx.toAddr = some balancesName) :
    decode_call env tx =
      if tx.data.length < 4 ∨ tx.data.take 4 ≠ [0xa9, 0x05, 0x9c, 0xbb] then
        .error .CallDecodeFailed
      else if tx.data.length < 68 then
        .error .InvalidTransactionData
      else
        .ok (.transferAllowDeath
          (map_address_to_account env.blake2_256 ((tx.data.drop 16).take 20))
          (min (beNat ((tx.data.drop 36).take 32) % 2 ^ 128) env.balanceMax)) := by
  unfold decode_call decode_balances_call
  rw [h]
  simp

/-- Witness for C10 (amended): a well-formed transfer of value 7 to `[0x01; 20]`
decodes to a `transfer_allow_death`; the characterization evaluates on it. -/
theorem decode_balances_characterization_witness :
    decode_call samplePalletEnv
        ⟨1, 0, 0, 0, 21000,
          [66, 97, 108, 97, 110, 99, 101, 115, 0, 0, 0, 0, 0, 0, 0, 0, 0, 0, 0, 0],
          0,
          [0xa9, 0x05, 0x9c, 0xbb] ++ List.replicate 12 0 ++ List.replicate 20 1
            ++ (List.replicate 31 0 ++ [7]),
          [], 0, List.replicate 32 0, List.replicate 32 0⟩
      = .ok (.transferAllowDeath (padAccountInput (List.replicate 20 1)) 7) := by
  have h := decode_balances_characterization samplePalletEnv
    ⟨1, 0, 0, 0, 21000,
      [66, 97, 108, 97, 110, 99, 101, 115, 0, 0, 0, 0, 0, 0, 0, 0, 0, 0, 0, 0],
      0,
      [0xa9, 0x05, 0x9c, 0xbb] ++ List.replicate 12 0 ++ List.replicate 20 1
        ++ (List.replicate 31 0 ++ [7]),
      [], 0, List.replicate 32 0, List.replicate 32 0⟩ (by decide)
  rw [h]
  decide

/-- Counterexample to C10 as stated: for the transferred amount the code takes
`low_u128()` — the value `2^128` (big-endian bytes `data[36..68]`) is truncated
to 0 instead of being saturated to the `u128` balance bound `2^128 - 1`. -/
theorem decode_balances_truncates_not_saturates :
    decode_call samplePalletEnv
        ⟨1, 0, 0, 0, 21000,
          [66, 97, 108, 97, 110, 99, 101, 115, 0, 0, 0, 0, 0, 0, 0, 0, 0, 0, 0, 0],
          0,
          [0xa9, 0x05, 0x9c, 0xbb] ++ List.replicate 12 0 ++ List.replicate 20 1
            ++ (List.replicate 15 0 ++ [1] ++ List.replicate 16 0),
          [], 0, List.replicate 32 0, List.replicate 32 0⟩
      = .ok (.transferAllowDeath (padAccountInput (List.replicate 20 1)) 0)
    ∧ min (beNat (List.replicate 15 0 ++ [1] ++ List.replicate 16 0))
        samplePalletEnv.balanceMax = 2 ^ 128 - 1
    ∧ (0 : Nat) ≠ 2 ^ 128 - 1 := by decide

/-! ### UTF-8 round-trip lemmas -/

/-- Decoding a byte below `0x80` peels it off. -/
theorem utf8Decode_cons_ascii (b : Nat) (rest : List Nat) (h : b < 0x80) :
    utf8Decode (b :: rest) = (utf8Decode rest).map (fun cs => b :: cs) := by
  rcases rest with _ | ⟨x, _ | ⟨y, _ | ⟨z, t⟩⟩⟩ <;> simp [utf8Decode, h]

/-- Decoding a valid 2-byte sequence peels off its scalar value. -/
theorem utf8Decode_cons_two (b b1 : Nat) (rest : List Nat) (h : twoByteOk b b1) :
    utf8Decode (b :: b1 :: rest) = (utf8Decode rest).map (fun cs => char2 b b1 :: cs) := by
  have hb : ¬ b < 0x80 := by unfold twoByteOk cont at h; omega
  rcases rest with _ | ⟨x, _ | ⟨y, t⟩⟩ <;> simp [utf8Decode, hb, h]

/-- Decoding a valid 3-byte sequence peels off its scalar value. -/
theorem utf8Decode_cons_three (b b1 b2 : Nat) (rest : List Nat) (h : threeByteOk b b1 b2) :
    utf8Decode (b :: b1 :: b2 :: rest)
      = (utf8Decode rest).map (fun cs => char3 b b1 b2 :: cs) := by
  have hb : ¬ b < 0x80 := by unfold threeByteOk cont at h; omega
  have h2 : ¬ twoByteOk b b1 := by unfold threeByteOk cont at h; unfold twoByteOk cont; omega
  rcases rest with _ | ⟨x, t⟩ <;> simp [utf8Decode, hb, h2, h]

/-- Decoding a valid 4-byte sequence peels off its scalar value. -/
theorem utf8Decode_cons_four (b b1 b2 b3 : Nat) (rest : List Nat) (h : fourByteOk b b1 b2 b3) :
    utf8Decode (b :: b1 :: b2 :: b3 :: rest)
      = (utf8Decode rest).map (fun cs => char4 b b1 b2 b3 :: cs) := by
  have hb : ¬ b < 0x80 := by unfold fourByteOk cont at h; omega
  have h2 : ¬ twoByteOk b b1 := by unfold fourByteOk cont at h; unfold twoByteOk cont; omega
  have h3 : ¬ threeByteOk b b1 b2 := by
    unfold fourByteOk cont at h; unfold threeByteOk cont; omega
  simp [utf8Decode, hb, h2, h3, h]

/-- Decoding after encoding one scalar value peels off exactly that value. -/
theorem utf8Decode_encodeChar_append (c : Nat) (h : ScalarValue c) (rest : List Nat) :
    utf8Decode (utf8EncodeChar c ++ rest) = (utf8Decode rest).map (fun cs => c :: cs) := by
  unfold ScalarValue at h
  by_cases h1 : c < 0x80
  · have e : utf8EncodeChar c = [c] := by unfold utf8EncodeChar; rw [if_pos h1]
    rw [e, List.cons_append, List.nil_append, utf8Decode_cons_ascii c rest h1]
  · by_cases h2 : c < 0x800
    · have e : utf8EncodeChar c = [0xC0 + c / 64, 0x80 + c % 64] := by
        unfold utf8EncodeChar; rw [if_neg h1, if_pos h2]
      rw [e]
      show utf8Decode ((0xC0 + c / 64) :: (0x80 + c % 64) :: rest) = _
      rw [utf8Decode_cons_two _ _ rest (by unfold twoByteOk cont; omega)]
      have harith : char2 (0xC0 + c / 64) (0x80 + c % 64) = c := by unfold char2; omega
      rw [harith]
    · by_cases h3 : c < 0x10000
      · have e : utf8EncodeChar c = [0xE0 + c / 4096, 0x80 + c / 64 % 64, 0x80 + c % 64] := by
          unfold utf8EncodeChar; rw [if_neg h1, if_neg h2, if_pos h3]
        rw [e]
        show utf8Decode
          ((0xE0 + c / 4096) :: (0x80 + c / 64 % 64) :: (0x80 + c % 64) :: rest) = _
        rw [utf8Decode_cons_three _ _ _ rest (by unfold threeByteOk cont; omega)]
        have harith : char3 (0xE0 + c / 4096) (0x80 + c / 64 % 64) (0x80 + c % 64) = c := by
          unfold char3; omega
        rw [harith]
      · have e : utf8EncodeChar c
            = [0xF0 + c / 262144, 0x80 + c / 4096 % 64, 0x80 + c / 64 % 64, 0x80 + c % 64] := by
          unfold utf8EncodeChar; rw [if_neg h1, if_neg h2, if_neg h3]
        rw [e]
        show utf8Decode ((0xF0 + c / 262144) :: (0x80 + c / 4096 % 64)
          :: (0x80 + c / 64 % 64) :: (0x80 + c % 64) :: rest) = _
        rw [utf8Decode_cons_four _ _ _ _ rest (by unfold fourByteOk cont; omega)]
        have harith : char4 (0xF0 + c / 262144) (0x80 + c / 4096 % 64) (0x80 + c / 64 % 64)
            (0x80 + c % 64) = c := by unfold char4; omega
        rw [harith]

/-- Decoding after encoding a whole string peels off exactly that string. -/
theorem utf8Decode_encode_append (cs : List Nat) (h : ∀ c ∈ cs, ScalarValue c)
    (rest : List Nat) :
    utf8Decode (utf8Encode cs ++ rest) = (utf8Decode rest).map (fun ds => cs ++ ds) := by
  induction cs with
  | nil =>
    simp only [utf8Encode, List.map_nil, List.flatten_nil, List.nil_append]
    cases utf8Decode rest <;> simp
  | cons c cs ih =>
    have hc : ScalarValue c := h c (by simp)
    have hcs : ∀ x ∈ cs, ScalarValue x := fun x hx => h x (by simp [hx])
    simp only [utf8Encode, List.map_cons, List.flatten_cons, List.append_assoc]
    rw [utf8Decode_encodeChar_append c hc]
    show (utf8Decode ((cs.map utf8EncodeChar).flatten ++ rest)).map _ = _
    rw [show (cs.map utf8EncodeChar).flatten = utf8Encode cs from rfl, ih hcs]
    cases utf8Decode rest <;> simp

/-- NUL padding decodes to NUL scalar values. -/
theorem utf8Decode_replicate_zero (k : Nat) :
    utf8Decode (List.replicate k 0) = some (List.replicate k 0) := by
  induction k with
  | zero => rfl
  | succ k ih =>
    rw [List.replicate_succ, utf8Decode_cons_ascii 0 _ (by omega), ih]
    simp [List.replicate_succ]

/-- Trimming trailing NULs removes exactly the zero padding when the string
itself contains no NULs. -/
theorem trimEndNul_append_zeros (cs : List Nat) (k : Nat) (h : ∀ c ∈ cs, c ≠ 0) :
    trimEndNul (cs ++ List.replicate k 0) = cs := by
  unfold trimEndNul
  rw [List.reverse_append, List.reverse_replicate]
  have hdrop : ∀ m, (List.replicate m 0 ++ cs.reverse).dropWhile (fun c => c == 0)
      = cs.reverse.dropWhile (fun c => c == 0) := by
    intro m
    induction m with
    | zero => simp
    | succ m ih =>
      rw [List.replicate_succ, List.cons_append, List.dropWhile_cons_of_pos (by simp)]
      exact ih
  rw [hdrop]
  cases hrev : cs.reverse with
  | nil =>
    have : cs = [] := by simpa using congrArg List.reverse hrev
    simp [this]
  | cons a t =>
    have ha : a ∈ cs := by
      have : a ∈ cs.reverse := by rw [hrev]; simp
      simpa using this
    rw [List.dropWhile_cons_of_neg (by simpa using h a ha), ← hrev, List.reverse_reverse]

/-- Claim C2 (amended): the pallet-name/contract-address pair round-trips for
every pallet name of at most 8 characters whose UTF-8 encoding is at most 20
bytes and contains no NULs.  (`contract_address` keeps only the first 8
characters, so 9-character names do not round-trip; see the counterexample.) -/
theorem pallet_name_roundtrip (P : List Nat) (hval : ∀ c ∈ P, ScalarValue c)
    (hchars : P.length ≤ 8) (hbytes : (utf8Encode P).length ≤ 20)
    (hnul : ∀ c ∈ P, c ≠ 0) :
    pallet_name (contract_address P) = some P := by
  unfold contract_address padToEthAddress
  rw [List.take_of_length_le hchars]
  have hmin : min (utf8Encode P).length 20 = (utf8Encode P).length := by omega
  rw [hmin, List.take_length]
  unfold pallet_name
  rw [utf8Decode_encode_append P hval, utf8Decode_replicate_zero]
  show some (trimEndNul (P ++ List.replicate (20 - (utf8Encode P).length) 0)) = some P
  rw [trimEndNul_append_zeros P _ hnul]

/-- Witness for C2 (amended): `"Balances"` (8 characters) round-trips. -/
theorem pallet_name_roundtrip_witness :
    pallet_name (contract_address balancesName) = some balancesName :=
  pallet_name_roundtrip balancesName (by decide) (by decide) (by decide) (by decide)

/-- Counterexample to C2 as stated: the 9-character name `"Balances2"` has a
9-byte NUL-free UTF-8 encoding, yet `contract_address` keeps only its first 8
characters, so the round-trip returns `"Balances"`. -/
theorem pallet_name_roundtrip_fails_at_nine_chars :
    pallet_name (contract_address [66, 97, 108, 97, 110, 99, 101, 115, 50])
      = some [66, 97, 108, 97, 110, 99, 101, 115]
    ∧ (utf8Encode [66, 97, 108, 97, 110, 99, 101, 115, 50]).length ≤ 20
    ∧ (∀ c ∈ [66, 97, 108, 97, 110, 99, 101, 115, 50], c ≠ 0)
    ∧ some [66, 97, 108, 97, 110, 99, 101, 115]
        ≠ some [66, 97, 108, 97, 110, 99, 101, 115, 50] := by decide

/-! ### Storage-key derivation and `call` -/

/-- The adapter fragment loop equals mapping `hash_key` over the hashers zipped
with the supplied keys: fragments are emitted in declared order and hashers
beyond the supplied keys contribute nothing. -/
theorem adapterFragments_eq_zip (H : HashFns) (keys : List (List Nat)) :
    ∀ (hashers : List StorageHasher) (i : Nat),
      adapterFragments H keys i hashers
        = ((hashers.zip (keys.drop i)).map (fun p => hash_key H p.2 p.1)).flatten := by
  intro hashers
  induction hashers with
  | nil => intro i; simp [adapterFragments]
  | cons h hs ih =>
    intro i
    have hdrop1 : keys.drop (i + 1) = (keys.drop i).tail := (List.tail_drop keys i).symm
    cases hk : keys.drop i with
    | nil =>
      have h0 : keys[i]? = none := by rw [← List.head?_drop, hk]; rfl
      have h1 : keys.drop (i + 1) = [] := by rw [hdrop1, hk]; rfl
      simp [adapterFragments, h0, ih (i + 1), h1]
    | cons k kt =>
      have h0 : keys[i]? = some k := by rw [← List.head?_drop, hk]; rfl
      have h1 : keys.drop (i + 1) = kt := by rw [hdrop1, hk]; rfl
      simp [adapterFragments, h0, ih (i + 1), h1]

/-- The legacy fragment loop fails when fewer keys than hashers are supplied. -/
theorem legacyFragments_short (H : HashFns) (keys : List (List Nat)) :
    ∀ (hashers : List StorageHasher) (i : Nat), i ≤ keys.length →
      keys.length < i + hashers.length →
      legacyFragments H keys i hashers
        = .error (.adapterError "Number of storage keys does not match with hashers") := by
  intro hashers
  induction hashers with
  | nil => intro i hle hlt; simp at hlt; omega
  | cons h hs ih =>
    intro i hle hlt
    by_cases hi : i < keys.length
    · rw [legacyFragments, List.getElem?_eq_getElem hi,
        ih (i + 1) (by omega) (by simp at hlt ⊢; omega)]
      rfl
    · have h0 : keys[i]? = none := List.getElem?_len_le (by omega)
      rw [legacyFragments, h0]

/-- The fully resolved adapter `call`: with a valid destination, parsable input
and known metadata entry, the result is the raw fetch of
`Twox128(pallet) ‖ Twox128(entry) ‖ fragments`. -/
theorem call_adapter_resolved (env : CallEnv) (req : TransactionRequest) (dest P : List Nat)
    (sk : StorageKeyReq) (e : StorageEntryType)
    (h1 : req.toField = some (.call dest))
    (h2 : pallet_name dest = some P)
    (h3 : (match req.input with
           | some input => env.parseStorageKey input
           | none => none) = some sk)
    (h4 : lookupEntry env.metadata P sk.name = some e) :
    call_adapter env req = env.fetch_raw
      ((env.H.twox_128 (utf8Encode P) ++ env.H.twox_128 (utf8Encode sk.name)) ++
        entryFragments env.H sk.keys e) := by
  unfold call_adapter
  simp only [h1, h2, h3, h4]
  cases e <;> rfl

/-- Claim C7: the derived storage key is `Twox128(P) ‖ Twox128(E)` followed,
for a Map entry, by the per-key fragments `hash(key_i, hasher_i)` in declared
order — `Blake2_128Concat` is `Blake2_128(key) ‖ key`, `Twox64Concat` is
`Twox64(key) ‖ key`, `Identity` is the key verbatim, and the remaining hashers
are the plain hash of the key; a Plain entry contributes no fragments. -/
theorem storage_key_derivation (env : CallEnv) (req : TransactionRequest) (dest P : List Nat)
    (sk : StorageKeyReq) (e : StorageEntryType)
    (h1 : req.toField = some (.call dest))
    (h2 : pallet_name dest = some P)
    (h3 : (match req.input with
           | some input => env.parseStorageKey input
           | none => none) = some sk)
    (h4 : lookupEntry env.metadata P sk.name = some e) :
    (e = .plain → call_adapter env req = env.fetch_raw
      ((env.H.twox_128 (utf8Encode P) ++ env.H.twox_128 (utf8Encode sk.name)) ++ []))
    ∧ (∀ hashers, e = .map hashers → call_adapter env req = env.fetch_raw
      ((env.H.twox_128 (utf8Encode P) ++ env.H.twox_128 (utf8Encode sk.name)) ++
        ((hashers.zip sk.keys).map (fun p =>
          match p.1 with
          | .blake2_128 => env.H.blake2_128 p.2
          | .blake2_256 => env.H.blake2_256 p.2
          | .blake2_128Concat => env.H.blake2_128 p.2 ++ p.2
          | .twox128 => env.H.twox_128 p.2
          | .twox256 => env.H.twox_256 p.2
          | .twox64Concat => env.H.twox_64 p.2 ++ p.2
          | .identity => p.2)).flatten)) := by
  have hres := call_adapter_resolved env req dest P sk e h1 h2 h3 h4
  constructor
  · intro he
    rw [he] at hres
    exact hres
  · intro hashers he
    rw [he] at hres
    rw [hres]
    simp only [entryFragments]
    rw [adapterFragments_eq_zip env.H sk.keys hashers 0, List.drop_zero]
    have hfun : (fun p : StorageHasher × List Nat => hash_key env.H p.2 p.1)
        = (fun p : StorageHasher × List Nat =>
            match p.1 with
            | .blake2_128 => env.H.blake2_128 p.2
            | .blake2_256 => env.H.blake2_256 p.2
            | .blake2_128Concat => env.H.blake2_128 p.2 ++ p.2
            | .twox128 => env.H.twox_128 p.2
            | .twox256 => env.H.twox_256 p.2
            | .twox64Concat => env.H.twox_64 p.2 ++ p.2
            | .identity => p.2) := by
      funext p
      cases hp : p.1 <;> rfl
    rw [hfun]

/-- Witness for C7: a concrete two-key map entry whose derived key is the
prefix followed by `Blake2_128Concat` and `Identity` fragments. -/
theorem storage_key_derivation_witness :
    call_adapter
      { H := sampleHashFns,
        metadata := ⟨[([65], ⟨some ⟨[([69],
          .map [.blake2_128Concat, .identity])]⟩⟩)]⟩,
        parseStorageKey := fun _ => some ⟨[69], [[7], [8]]⟩,
        fetch_raw := fun key => .ok (some key) }
      { toField := some (.call ([65] ++ List.replicate 19 0)), input := some [1] }
      = .ok (some (([65] ++ [69]) ++ ([7] ++ [7] ++ ([8] ++ [])))) := by
  have h := (storage_key_derivation
    { H := sampleHashFns,
      metadata := ⟨[([65], ⟨some ⟨[([69],
        .map [.blake2_128Concat, .identity])]⟩⟩)]⟩,
      parseStorageKey := fun _ => some ⟨[69], [[7], [8]]⟩,
      fetch_raw := fun key => .ok (some key) }
    { toField := some (.call ([65] ++ List.replicate 19 0)), input := some [1] }
    ([65] ++ List.replicate 19 0) [65] ⟨[69], [[7], [8]]⟩
    (.map [.blake2_128Concat, .identity])
    rfl (by decide) rfl (by decide)).2
    [.blake2_128Concat, .identity] rfl
  rw [h]
  decide

/-- Claim C5 (amended): with fewer key fragments than declared hashers, the
adapter crate's `call` applies the supplied fragments in order, ignores the
remaining hashers and fetches the resulting prefix key without failing; the
duplicate legacy `call` of the root crate instead fails with an
`AdapterError`. -/
theorem call_prefix_query (env : CallEnv) (req : TransactionRequest) (dest P : List Nat)
    (sk : StorageKeyReq) (hashers : List StorageHasher)
    (h1 : req.toField = some (.call dest))
    (h2 : pallet_name dest = some P)
    (h3 : (match req.input with
           | some input => env.parseStorageKey input
           | none => none) = some sk)
    (h4 : lookupEntry env.metadata P sk.name = some (.map hashers))
    (h5 : sk.keys.length < hashers.length) :
    call_adapter env req = env.fetch_raw
      ((env.H.twox_128 (utf8Encode P) ++ env.H.twox_128 (utf8Encode sk.name)) ++
        ((hashers.zip sk.keys).map (fun p => hash_key env.H p.2 p.1)).flatten)
    ∧ call_legacy env req
      = .error (.adapterError "Number of storage keys does not match with hashers") := by
  constructor
  · have hres := call_adapter_resolved env req dest P sk (.map hashers) h1 h2 h3 h4
    rw [hres]
    simp only [entryFragments]
    rw [adapterFragments_eq_zip env.H sk.keys hashers 0, List.drop_zero]
  · obtain ⟨input, hin⟩ : ∃ input, req.input = some input := by
      cases hi : req.input with
      | none => rw [hi] at h3; cases h3
      | some input => exact ⟨input, rfl⟩
    have hparse : env.parseStorageKey input = some sk := by
      rw [hin] at h3; exact h3
    obtain ⟨pallet, hp⟩ : ∃ pallet, lookupName env.metadata.pallets P = some pallet := by
      unfold lookupEntry at h4
      cases hl : lookupName env.metadata.pallets P with
      | none => rw [hl] at h4; cases h4
      | some pallet => exact ⟨pallet, rfl⟩
    obtain ⟨st, hst⟩ : ∃ st, pallet.storage = some st := by
      unfold lookupEntry at h4
      rw [hp] at h4
      simp only [Option.some_bind] at h4
      cases hs : pallet.storage with
      | none => rw [hs] at h4; cases h4
      | some st => exact ⟨st, rfl⟩
    have hentry : lookupName st.entries sk.name = some (.map hashers) := by
      unfold lookupEntry at h4
      rw [hp] at h4
      simp only [Option.some_bind] at h4
      rw [hst] at h4
      simp only [Option.some_bind] at h4
      exact h4
    unfold call_legacy
    simp only [h1, h2, hin, hparse, hp, hst, hentry]
    rw [legacyFragments_short env.H sk.keys hashers 0 (by omega) (by omega)]

/-- Witness for C5 (amended): one supplied key against two declared `Identity`
hashers — the adapter `call` fetches the prefix key, the legacy `call` errors. -/
theorem call_prefix_query_witness :
    call_adapter
      { H := sampleHashFns,
        metadata := ⟨[([65], ⟨some ⟨[([69], .map [.identity, .identity])]⟩⟩)]⟩,
        parseStorageKey := fun _ => some ⟨[69], [[7]]⟩,
        fetch_raw := fun key => .ok (some key) }
      { toField := some (.call ([65] ++ List.replicate 19 0)), input := some [1] }
      = .ok (some (([65] ++ [69]) ++ [7]))
    ∧ call_legacy
      { H := sampleHashFns,
        metadata := ⟨[([65], ⟨some ⟨[([69], .map [.identity, .identity])]⟩⟩)]⟩,
        parseStorageKey := fun _ => some ⟨[69], [[7]]⟩,
        fetch_raw := fun key => .ok (some key) }
      { toField := some (.call ([65] ++ List.replicate 19 0)), input := some [1] }
      = .error (.adapterError "Number of storage keys does not match with hashers") := by
  have h := call_prefix_query
    { H := sampleHashFns,
      metadata := ⟨[([65], ⟨some ⟨[([69], .map [.identity, .identity])]⟩⟩)]⟩,
      parseStorageKey := fun _ => some ⟨[69], [[7]]⟩,
      fetch_raw := fun key => .ok (some key) }
    { toField := some (.call ([65] ++ List.replicate 19 0)), input := some [1] }
    ([65] ++ List.replicate 19 0) [65] ⟨[69], [[7]]⟩ [.identity, .identity]
    rfl (by decide) rfl (by decide) (by decide)
  refine ⟨?_, h.2⟩
  rw [h.1]
  decide

/-- Counterexample to C5 as stated: the legacy `call` of `src/src/sub_client.rs`
(one of the claim's cited derivations) fails with an `AdapterError` when one
key fragment is supplied against two declared hashers, instead of producing a
prefix key. -/
theorem call_legacy_missing_fragment_errors :
    call_legacy
      { H := sampleHashFns,
        metadata := ⟨[([65], ⟨some ⟨[([69], .map [.identity, .identity])]⟩⟩)]⟩,
        parseStorageKey := fun _ => some ⟨[69], [[9]]⟩,
        fetch_raw := fun key => .ok (some key) }
      { toField := some (.call ([65] ++ List.replicate 19 0)), input := some [2] }
      = .error (.adapterError "Number of storage keys does not match with hashers") := by
  decide

/-- Claim C6: every guard failure of the adapter `call` — missing or non-call
destination, non-pallet destination, undecodable input, unknown
pallet/storage/entry — returns `Ok(None)`, not an error. -/
theorem call_guard_failures_return_none (env : CallEnv) (req : TransactionRequest) :
    (req.toField = none → call_adapter env req = .ok none)
    ∧ (req.toField = some .create → call_adapter env req = .ok none)
    ∧ (∀ dest, req.toField = some (.call dest) → pallet_name dest = none →
        call_adapter env req = .ok none)
    ∧ (∀ dest, req.toField = some (.call dest) →
        (match req.input with
         | some input => env.parseStorageKey input
         | none => none) = none →
        call_adapter env req = .ok none)
    ∧ (∀ dest P sk, req.toField = some (.call dest) → pallet_name dest = some P →
        (match req.input with
         | some input => env.parseStorageKey input
         | none => none) = some sk →
        lookupEntry env.metadata P sk.name = none →
        call_adapter env req = .ok none) := by
  refine ⟨?_, ?_, ?_, ?_, ?_⟩
  · intro h; unfold call_adapter; rw [h]
  · intro h; unfold call_adapter; rw [h]
  · intro dest h hpn
    unfold call_adapter
    simp only [h, hpn]
  · intro dest h hparse
    unfold call_adapter
    simp only [h, hparse]
    cases pallet_name dest <;> rfl
  · intro dest P sk h hpn hparse hlook
    unfold call_adapter
    simp only [h, hpn, hparse, hlook]

/-- Witness for C6: a request with no destination, and one to a non-pallet
(invalid UTF-8) destination, both return `Ok(None)`. -/
theorem call_guard_failures_return_none_witness :
    call_adapter
      { H := sampleHashFns, metadata := ⟨[]⟩, parseStorageKey := fun _ => none,
        fetch_raw := fun _ => .ok none }
      { toField := none, input := none }
      = .ok none
    ∧ call_adapter
      { H := sampleHashFns, metadata := ⟨[]⟩, parseStorageKey := fun _ => none,
        fetch_raw := fun _ => .ok none }
      { toField := some (.call (255 :: List.replicate 19 0)), input := some [1] }
      = .ok none :=
  ⟨(call_guard_failures_return_none
      { H := sampleHashFns, metadata := ⟨[]⟩, parseStorageKey := fun _ => none,
        fetch_raw := fun _ => .ok none }
      { toField := none, input := none }).1 rfl,
   (call_guard_failures_return_none
      { H := sampleHashFns, metadata := ⟨[]⟩, parseStorageKey := fun _ => none,
        fetch_raw := fun _ => .ok none }
      { toField := some (.call (255 :: List.replicate 19 0)), input := some [1] }).2.2.1
      (255 :: List.replicate 19 0) rfl (by decide)⟩

/-! ### `convert_extrinsic` -/

/-- Claim C9 (amended): the adapter crate's `convert_extrinsic` maps a missing
signer (unsigned/inherent extrinsic) to the zero `from` address and succeeds
whenever the rest of the conversion is available, and maps a 32-byte signer to
its first 20 bytes; the duplicate legacy `convert_extrinsic` of the root crate
instead fails with `AdapterError "Address not found"` on a missing signer. -/
theorem convert_extrinsic_from_field (block_number : Nat) (block_hash : List Nat)
    (ext : ExtrinsicData) (decimals : Nat) :
    (ext.address_bytes = none →
      convert_extrinsic_legacy block_number block_hash ext decimals
        = .error (.adapterError "Address not found")
      ∧ (∀ tx, convert_extrinsic_adapter block_number block_hash ext decimals = .ok tx →
          tx.fromAddr = List.replicate 20 0)
      ∧ ((ext.transfer ≠ none ∨ ext.pallet_name_res ≠ none) →
          ∃ tx, convert_extrinsic_adapter block_number block_hash ext decimals = .ok tx
            ∧ tx.fromAddr = List.replicate 20 0))
    ∧ (∀ a, ext.address_bytes = some a → a.length = 32 →
        ∀ tx, convert_extrinsic_adapter block_number block_hash ext decimals = .ok tx →
          tx.fromAddr = a.take 20) := by
  have hzero : to_address (List.replicate 32 0) = List.replicate 20 0 := by
    unfold to_address
    rw [List.take_replicate]
    norm_num
  constructor
  · intro haddr
    refine ⟨?_, ?_, ?_⟩
    · unfold convert_extrinsic_legacy
      rw [haddr]
    · intro tx htx
      unfold convert_extrinsic_adapter at htx
      rw [haddr] at htx
      cases hd : destValue ext with
      | error e => rw [hd] at htx; cases htx
      | ok dv =>
        obtain ⟨dest, value⟩ := dv
        rw [hd] at htx
        cases htx
        exact hzero
    · intro hsome
      obtain ⟨dv, hd⟩ : ∃ dv, destValue ext = .ok dv := by
        unfold destValue
        cases ht : ext.transfer with
        | some p =>
          obtain ⟨ma, v⟩ := p
          cases ma <;> exact ⟨_, rfl⟩
        | none =>
          cases hp : ext.pallet_name_res with
          | some nm => exact ⟨_, rfl⟩
          | none =>
            rcases hsome with h | h
            · exact absurd ht h
            · exact absurd hp h
      obtain ⟨dest, value⟩ := dv
      refine ⟨{ fromAddr := to_address (List.replicate 32 0), toAddr := dest,
                value := to_wei value decimals,
                nonce := match ext.signed_extensions with
                         | some exts => exts.getD 0
                         | none => 0,
                gas_limit := 21000000, input := ext.call_bytes,
                tx_hash := ext.hashBytes, block_hash := block_hash,
                block_number := block_number, transaction_index := ext.index }, ?_, ?_⟩
      · unfold convert_extrinsic_adapter
        rw [haddr, hd]
      · exact hzero
  · intro a haddr ha tx htx
    unfold convert_extrinsic_adapter at htx
    rw [haddr] at htx
    cases hd : destValue ext with
    | error e => rw [hd] at htx; cases htx
    | ok dv =>
      obtain ⟨dest, value⟩ := dv
      rw [hd] at htx
      cases htx
      show to_address (if a.length = 32 then a else List.replicate 32 0) = a.take 20
      rw [if_pos ha]
      rfl

/-- Witness for C9 (amended): a concrete inherent extrinsic (no signer): the
legacy converter errors, the adapter converter succeeds with the zero `from`
address. -/
theorem convert_extrinsic_from_field_witness :
    convert_extrinsic_legacy 5 (List.replicate 32 9)
        ⟨List.replicate 32 1, 0, none, none, some [84], none, [1, 2]⟩ 10
      = .error (.adapterError "Address not found")
    ∧ ∃ tx, convert_extrinsic_adapter 5 (List.replicate 32 9)
        ⟨List.replicate 32 1, 0, none, none, some [84], none, [1, 2]⟩ 10
      = .ok tx ∧ tx.fromAddr = List.replicate 20 0 := by
  have h := (convert_extrinsic_from_field 5 (List.replicate 32 9)
    ⟨List.replicate 32 1, 0, none, none, some [84], none, [1, 2]⟩ 10).1 rfl
  exact ⟨h.1, h.2.2 (Or.inr (by decide))⟩

/-- Counterexample to C9 as stated: the legacy `convert_extrinsic` of
`src/src/sub_client.rs` (one of the claim's cited conversions) fails on an
unsigned extrinsic instead of using the zero address. -/
theorem convert_extrinsic_legacy_fails_unsigned :
    convert_extrinsic_legacy 7 (List.replicate 32 3)
        ⟨List.replicate 32 2, 1, none, none, some [84], none, [4, 5]⟩ 12
      = .error (.adapterError "Address not found") := by decide

/-! ### `BlockCache` eviction -/

/-- `insert_block` below capacity: pure insertion, no eviction. -/
theorem insert_block_no_evict (st : CacheState) (b : CBlock)
    (hcond : ¬ st.max_blocks ≤ st.order.length) :
    insert_block st b = { st with
      order := st.order ++ [b.hash],
      hash_to_block := fun h => if h = b.hash then some b else st.hash_to_block h,
      number_to_hash := fun n => if n = b.number then some b.hash
        else st.number_to_hash n } := by
  unfold insert_block
  rw [if_neg hcond]

/-- `insert_block` at capacity with a non-empty queue: the front hash is
evicted from all three structures before the insertion. -/
theorem insert_block_evict (st : CacheState) (b : CBlock) (oldh : Nat) (resth : List Nat)
    (hord : st.order = oldh :: resth) (hcond : st.max_blocks ≤ st.order.length) :
    insert_block st b = { st with
      order := resth ++ [b.hash],
      hash_to_block := fun h => if h = b.hash then some b
        else if h = oldh then none else st.hash_to_block h,
      number_to_hash := fun n => if n = b.number then some b.hash
        else match st.number_to_hash n with
             | some hsh => if hsh = oldh then none else some hsh
             | none => none } := by
  unfold insert_block
  rw [if_pos hcond, hord]

/-- `find?` on a list with injectively mapped keys returns exactly the member
carrying the sought key. -/
theorem find?_of_mem_nodup (f : CBlock → Nat) (l : List CBlock) (hnd : (l.map f).Nodup)
    (b : CBlock) (hb : b ∈ l) : l.find? (fun x => f x == f b) = some b := by
  induction l with
  | nil => cases hb
  | cons a t ih =>
    rw [List.map_cons] at hnd
    have hnd2 := List.nodup_cons.mp hnd
    rcases List.mem_cons.mp hb with rfl | hbt
    · rw [List.find?_cons_of_pos t (by simp)]
    · have hfa : ¬ f a = f b := by
        intro he
        exact hnd2.1 (he ▸ List.mem_map_of_mem f hbt)
      rw [List.find?_cons_of_neg t (by simpa using hfa)]
      exact ih hnd2.2 hbt

/-- In a duplicate-free list, the element at an index before `d` does not occur
in the drop at `d`. -/
theorem getElem_not_mem_drop (l : List Nat) (hnd : l.Nodup) (i d : Nat) (hid : i < d)
    (hil : i < l.length) : l.get ⟨i, hil⟩ ∉ l.drop d := by
  intro hmem
  rw [← List.take_append_drop d l] at hnd
  obtain ⟨-, -, hdisj⟩ := List.nodup_append.mp hnd
  have hlen : i < (l.take d).length := by
    rw [List.length_take]
    omega
  have htake : l.get ⟨i, hil⟩ ∈ l.take d := by
    have hgt : (l.take d).get ⟨i, hlen⟩ = l.get ⟨i, hil⟩ := List.getElem_take l
    rw [← hgt]
    exact List.getElem_mem hlen
  exact hdisj htake hmem

/-- The state after folding distinct blocks into a fresh cache of positive
capacity: the FIFO queue holds the hashes of the last `cap` blocks, and the two
maps answer exactly for those blocks. -/
theorem insertAll_characterization (cap : Nat) (hcap : 0 < cap) :
    ∀ (bs : List CBlock), (bs.map CBlock.hash).Nodup → (bs.map CBlock.number).Nodup →
      (insertAll (emptyCache cap) bs).max_blocks = cap
      ∧ (insertAll (emptyCache cap) bs).order
          = (bs.drop (bs.length - cap)).map CBlock.hash
      ∧ (∀ h, (insertAll (emptyCache cap) bs).hash_to_block h
          = (bs.drop (bs.length - cap)).find? (fun x => x.hash == h))
      ∧ (∀ n, (insertAll (emptyCache cap) bs).number_to_hash n
          = ((bs.drop (bs.length - cap)).find? (fun x => x.number == n)).map CBlock.hash) := by
  intro bs
  induction bs using List.reverseRecOn with
  | nil =>
    intro _ _
    exact ⟨rfl, by simp [insertAll, emptyCache], fun h => by simp [insertAll, emptyCache],
      fun n => by simp [insertAll, emptyCache]⟩
  | append_singleton ys y ih =>
    intro hh hn
    rw [List.map_append] at hh hn
    obtain ⟨hys_h, -, hdis_h⟩ := List.nodup_append.mp hh
    obtain ⟨hys_n, -, hdis_n⟩ := List.nodup_append.mp hn
    have hy_h : y.hash ∉ ys.map CBlock.hash := fun hmem => hdis_h hmem (by simp)
    have hy_n : y.number ∉ ys.map CBlock.number := fun hmem => hdis_n hmem (by simp)
    obtain ⟨ihcap, ihorder, ihhash, ihnum⟩ := ih hys_h hys_n
    have hfold : insertAll (emptyCache cap) (ys ++ [y])
        = insert_block (insertAll (emptyCache cap) ys) y := by
      unfold insertAll
      rw [List.foldl_append]
      rfl
    set st := insertAll (emptyCache cap) ys with hst
    have hlen_new : (ys ++ [y]).length = ys.length + 1 := by simp
    by_cases hL : ys.length < cap
    · -- below capacity: no eviction
      have hdrop0 : ys.length - cap = 0 := by omega
      have hdrop0' : (ys ++ [y]).length - cap = 0 := by omega
      rw [hdrop0, List.drop_zero] at ihorder ihhash ihnum
      have hcond : ¬ st.max_blocks ≤ st.order.length := by
        rw [ihcap, ihorder, List.length_map]
        omega
      rw [hfold, insert_block_no_evict st y hcond, hdrop0', List.drop_zero]
      refine ⟨ihcap, ?_, ?_, ?_⟩
      · show st.order ++ [y.hash] = (ys ++ [y]).map CBlock.hash
        rw [ihorder, List.map_append]
        rfl
      · intro h
        show (if h = y.hash then some y else st.hash_to_block h)
          = (ys ++ [y]).find? (fun x => x.hash == h)
        rw [List.find?_append]
        by_cases hhy : h = y.hash
        · rw [if_pos hhy]
          have hnone : ys.find? (fun x => x.hash == h) = none := by
            rw [List.find?_eq_none]
            intro x hx
            simp only [beq_iff_eq]
            intro heq
            exact hy_h (hhy ▸ heq ▸ List.mem_map_of_mem CBlock.hash hx)
          rw [hnone, Option.none_or]
          simp [hhy]
        · rw [if_neg hhy, ihhash h]
          have hynone : List.find? (fun x => x.hash == h) [y] = none := by
            simp only [List.find?_singleton, beq_iff_eq]
            rw [if_neg (fun heq => hhy (heq.symm))]
          rw [hynone, Option.or_none]
      · intro n
        show (if n = y.number then some y.hash else st.number_to_hash n)
          = ((ys ++ [y]).find? (fun x => x.number == n)).map CBlock.hash
        rw [List.find?_append]
        by_cases hny : n = y.number
        · rw [if_pos hny]
          have hnone : ys.find? (fun x => x.number == n) = none := by
            rw [List.find?_eq_none]
            intro x hx
            simp only [beq_iff_eq]
            intro heq
            exact hy_n (hny ▸ heq ▸ List.mem_map_of_mem CBlock.number hx)
          rw [hnone, Option.none_or]
          simp [hny]
        · rw [if_neg hny, ihnum n]
          have hynone : List.find? (fun x => x.number == n) [y] = none := by
            simp only [List.find?_singleton, beq_iff_eq]
            rw [if_neg (fun heq => hny (heq.symm))]
          rw [hynone, Option.or_none]
    · -- at capacity: evict the front of the queue
      have hcapL : cap ≤ ys.length := by omega
      have hkeplen : (ys.drop (ys.length - cap)).length = cap := by
        rw [List.length_drop]
        omega
      cases hk : ys.drop (ys.length - cap) with
      | nil => rw [hk] at hkeplen; simp at hkeplen; omega
      | cons k0 ktail =>
        have hkt1 : ktail.length + 1 = cap := by
          rw [hk] at hkeplen
          simpa using hkeplen
        have horder : st.order = k0.hash :: ktail.map CBlock.hash := by
          rw [ihorder, hk]
          rfl
        have hcond : st.max_blocks ≤ st.order.length := by
          rw [ihcap, horder]
          simp
          omega
        -- the kept suffix of the new list
        have hd1 : (ys ++ [y]).length - cap = (ys.length - cap) + 1 := by
          rw [hlen_new]
          omega
        have hkept' : (ys ++ [y]).drop ((ys ++ [y]).length - cap) = ktail ++ [y] := by
          rw [hd1, List.drop_append_of_le_length (by omega), ← List.tail_drop, hk]
          rfl
        -- membership facts about the kept suffix
        have hsub : ∀ x, x ∈ ys.drop (ys.length - cap) → x ∈ ys :=
          fun x hx => (List.drop_sublist _ _).subset hx
        have hk0_mem : k0 ∈ ys := hsub k0 (by rw [hk]; simp)
        have hktail_mem : ∀ x, x ∈ ktail → x ∈ ys :=
          fun x hx => hsub x (by rw [hk]; simp [hx])
        have hkept_h_nodup : ((k0 :: ktail).map CBlock.hash).Nodup := by
          rw [← hk, List.map_drop]
          exact ((List.map CBlock.hash ys).drop_sublist _).nodup hys_h
        have hkept_n_nodup : ((k0 :: ktail).map CBlock.number).Nodup := by
          rw [← hk, List.map_drop]
          exact ((List.map CBlock.number ys).drop_sublist _).nodup hys_n
        rw [List.map_cons] at hkept_h_nodup hkept_n_nodup
        have hk0_h := (List.nodup_cons.mp hkept_h_nodup).1
        have hk0_n := (List.nodup_cons.mp hkept_n_nodup).1
        rw [hfold, insert_block_evict st y k0.hash (ktail.map CBlock.hash) horder hcond,
          hkept']
        refine ⟨ihcap, ?_, ?_, ?_⟩
        · show ktail.map CBlock.hash ++ [y.hash] = (ktail ++ [y]).map CBlock.hash
          rw [List.map_append]
          rfl
        · intro h
          show (if h = y.hash then some y
              else if h = k0.hash then none else st.hash_to_block h)
            = (ktail ++ [y]).find? (fun x => x.hash == h)
          rw [List.find?_append]
          by_cases hhy : h = y.hash
          · rw [if_pos hhy]
            have hnone : ktail.find? (fun x => x.hash == h) = none := by
              rw [List.find?_eq_none]
              intro x hx
              simp only [beq_iff_eq]
              intro heq
              exact hy_h (hhy ▸ heq ▸ List.mem_map_of_mem CBlock.hash (hktail_mem x hx))
            rw [hnone, Option.none_or]
            simp [hhy]
          · have hynone : List.find? (fun x => x.hash == h) [y] = none := by
              simp only [List.find?_singleton, beq_iff_eq]
              rw [if_neg (fun heq => hhy (heq.symm))]
            rw [if_neg hhy, hynone, Option.or_none]
            by_cases hhk : h = k0.hash
            · rw [if_pos hhk]
              have hnone : ktail.find? (fun x => x.hash == h) = none := by
                rw [List.find?_eq_none]
                intro x hx
                simp only [beq_iff_eq]
                intro heq
                exact hk0_h (hhk ▸ heq ▸ List.mem_map_of_mem CBlock.hash hx)
              rw [hnone]
            · rw [if_neg hhk, ihhash h, hk,
                List.find?_cons_of_neg _ (by simpa using fun heq => hhk (heq.symm))]
        · intro n
          show (if n = y.number then some y.hash
              else match st.number_to_hash n with
                   | some hsh => if hsh = k0.hash then none else some hsh
                   | none => none)
            = ((ktail ++ [y]).find? (fun x => x.number == n)).map CBlock.hash
          rw [List.find?_append]
          by_cases hny : n = y.number
          · rw [if_pos hny]
            have hnone : ktail.find? (fun x => x.number == n) = none := by
              rw [List.find?_eq_none]
              intro x hx
              simp only [beq_iff_eq]
              intro heq
              exact hy_n (hny ▸ heq ▸ List.mem_map_of_mem CBlock.number (hktail_mem x hx))
            rw [hnone, Option.none_or]
            simp [hny]
          · have hynone : List.find? (fun x => x.number == n) [y] = none := by
              simp only [List.find?_singleton, beq_iff_eq]
              rw [if_neg (fun heq => hny (heq.symm))]
            rw [if_neg hny, hynone, Option.or_none, ihnum n, hk]
            by_cases hnk : k0.number = n
            · rw [List.find?_cons_of_pos _ (by simpa using hnk)]
              have hnone : ktail.find? (fun x => x.number == n) = none := by
                rw [List.find?_eq_none]
                intro x hx
                simp only [beq_iff_eq]
                intro heq
                exact hk0_n (hnk ▸ heq ▸ List.mem_map_of_mem CBlock.number hx)
              rw [hnone]
              simp
            · rw [List.find?_cons_of_neg _ (by simpa using hnk)]
              cases hfind : ktail.find? (fun x => x.number == n) with
              | none => simp
              | some b =>
                have hb_mem : b ∈ ktail := List.mem_of_find?_eq_some hfind
                have hbk0 : ¬ b.hash = k0.hash := by
                  intro heq
                  exact hk0_h (heq ▸ List.mem_map_of_mem CBlock.hash hb_mem)
                simp [hbk0]

/-- Claim C4: after `N > C` sequential `insert_block` calls with pairwise
distinct hashes and numbers on a fresh cache of capacity `C > 0`, the cache
holds exactly the last `C` inserted blocks — `get_by_number` and `get_by_hash`
answer `Some` for each of the last `C` blocks and `None` for every earlier
one, and the queue holds exactly `C` entries. -/
theorem blockCache_fifo_eviction (cap : Nat) (hcap : 0 < cap) (bs : List CBlock)
    (hlen : cap < bs.length)
    (hh : (bs.map CBlock.hash).Nodup) (hn : (bs.map CBlock.number).Nodup) :
    (insertAll (emptyCache cap) bs).order.length = cap
    ∧ ∀ i (hi : i < bs.length),
        (bs.length - cap ≤ i →
          get_by_number (insertAll (emptyCache cap) bs) (bs.get ⟨i, hi⟩).number
              = some (bs.get ⟨i, hi⟩)
          ∧ get_by_hash (insertAll (emptyCache cap) bs) (bs.get ⟨i, hi⟩).hash
              = some (bs.get ⟨i, hi⟩))
        ∧ (i < bs.length - cap →
          get_by_number (insertAll (emptyCache cap) bs) (bs.get ⟨i, hi⟩).number = none
          ∧ get_by_hash (insertAll (emptyCache cap) bs) (bs.get ⟨i, hi⟩).hash = none) := by
  obtain ⟨hcap', horder, hhash, hnum⟩ := insertAll_characterization cap hcap bs hh hn
  set st := insertAll (emptyCache cap) bs with hstdef
  set d := bs.length - cap with hd
  have hkept_nodup_h : ((bs.drop d).map CBlock.hash).Nodup := by
    rw [List.map_drop]
    exact ((bs.map CBlock.hash).drop_sublist d).nodup hh
  have hkept_nodup_n : ((bs.drop d).map CBlock.number).Nodup := by
    rw [List.map_drop]
    exact ((bs.map CBlock.number).drop_sublist d).nodup hn
  constructor
  · rw [horder, List.length_map, List.length_drop]
    omega
  · intro i hi
    set b := bs.get ⟨i, hi⟩ with hb
    constructor
    · intro hge
      have hj : i - d < (bs.drop d).length := by
        rw [List.length_drop]
        omega
      have hmem : b ∈ bs.drop d := by
        have h1 : (bs.drop d)[i - d]? = bs[d + (i - d)]? := List.getElem?_drop bs d (i - d)
        have hidx : d + (i - d) = i := by omega
        rw [hidx] at h1
        have h3 : bs[i]? = some b := List.getElem?_eq_getElem hi
        rw [h3] at h1
        exact List.getElem?_mem h1
      have hfindn := find?_of_mem_nodup CBlock.number (bs.drop d) hkept_nodup_n b hmem
      have hfindh := find?_of_mem_nodup CBlock.hash (bs.drop d) hkept_nodup_h b hmem
      refine ⟨?_, ?_⟩
      · unfold get_by_number
        rw [hnum b.number, hfindn, Option.map_some', Option.some_bind, hhash b.hash, hfindh]
      · unfold get_by_hash
        rw [hhash b.hash, hfindh]
    · intro hlt
      have hnum_notmem : b.number ∉ (bs.drop d).map CBlock.number := by
        rw [List.map_drop]
        have hi' : i < (bs.map CBlock.number).length := by simpa using hi
        have hbnum : b.number = (bs.map CBlock.number).get ⟨i, hi'⟩ := by
          rw [hb]
          exact (List.getElem_map CBlock.number).symm
        rw [hbnum]
        exact getElem_not_mem_drop (bs.map CBlock.number) hn i d hlt hi'
      have hhash_notmem : b.hash ∉ (bs.drop d).map CBlock.hash := by
        rw [List.map_drop]
        have hi' : i < (bs.map CBlock.hash).length := by simpa using hi
        have hbh : b.hash = (bs.map CBlock.hash).get ⟨i, hi'⟩ := by
          rw [hb]
          exact (List.getElem_map CBlock.hash).symm
        rw [hbh]
        exact getElem_not_mem_drop (bs.map CBlock.hash) hh i d hlt hi'
      have hfindn : (bs.drop d).find? (fun x => x.number == b.number) = none := by
        rw [List.find?_eq_none]
        intro x hx
        simp only [beq_iff_eq]
        intro heq
        exact hnum_notmem (heq ▸ List.mem_map_of_mem CBlock.number hx)
      have hfindh : (bs.drop d).find? (fun x => x.hash == b.hash) = none := by
        rw [List.find?_eq_none]
        intro x hx
        simp only [beq_iff_eq]
        intro heq
        exact hhash_notmem (heq ▸ List.mem_map_of_mem CBlock.hash hx)
      refine ⟨?_, ?_⟩
      · unfold get_by_number
        rw [hnum b.number, hfindn]
        rfl
      · unfold get_by_hash
        rw [hhash b.hash, hfindh]

/-- Witness for C4: the spec's literal scenario — capacity 2, blocks B1, B2,
B3 inserted in order; number 1 misses, numbers 2 and 3 hit. -/
theorem blockCache_fifo_eviction_witness :
    get_by_number (insertAll (emptyCache 2) [⟨101, 1, 0⟩, ⟨102, 2, 0⟩, ⟨103, 3, 0⟩]) 1 = none
    ∧ get_by_number (insertAll (emptyCache 2) [⟨101, 1, 0⟩, ⟨102, 2, 0⟩, ⟨103, 3, 0⟩]) 2
        = some ⟨102, 2, 0⟩
    ∧ get_by_number (insertAll (emptyCache 2) [⟨101, 1, 0⟩, ⟨102, 2, 0⟩, ⟨103, 3, 0⟩]) 3
        = some ⟨103, 3, 0⟩ := by
  have h := blockCache_fifo_eviction 2 (by decide)
    [⟨101, 1, 0⟩, ⟨102, 2, 0⟩, ⟨103, 3, 0⟩] (by decide) (by decide) (by decide)
  exact ⟨((h.2 0 (by decide)).2 (by decide)).1,
    ((h.2 1 (by decide)).1 (by decide)).1,
    ((h.2 2 (by decide)).1 (by decide)).1⟩

end Subeth
